import Mathlib

/-
Formal model of Filey (src/filey.py), a PyQt6 file-browser.

Python strings are modelled as Lean `String` (a wrapper around `List Char`);
the Python string primitives used by the program (`str.lower`, `str.strip`,
substring containment `in`, lexicographic comparison for `sorted`/`list.sort`,
`os.path.join` / `basename` / `dirname` / `splitext`) are defined below over
the character list, following CPython's documented semantics (`str.lower`
restricted to ASCII letters, which is all the program's claims exercise).

The filesystem visible to one directory scan is modelled as a list of
directory entries (`DirEnt`), each carrying its classification
(directory / regular file / other) and, for files, an optional size —
`none` meaning `os.path.getsize` raises.  A failed `os.listdir` is the
`none` case of the scanner's input.
-/

namespace Filey

/-- Model of CPython `str.lower` on one character (ASCII range, which covers
every string the program's spec exercises). -/
def pyLowerChar (c : Char) : Char :=
  if 65 ≤ c.toNat ∧ c.toNat ≤ 90 then Char.ofNat (c.toNat + 32) else c

/-- Model of Python `str.lower`. -/
def pyLower (s : String) : String := ⟨s.data.map pyLowerChar⟩

/-- Characters removed by Python `str.strip()` with no argument
(space, tab, newline, carriage return, vertical tab, form feed). -/
def pyIsSpace (c : Char) : Bool :=
  c.toNat = 32 || c.toNat = 9 || c.toNat = 10 || c.toNat = 13 ||
  c.toNat = 11 || c.toNat = 12

/-- Model of Python `str.strip()`: whitespace removed from both ends. -/
def pyStrip (s : String) : String :=
  ⟨((s.data.dropWhile pyIsSpace).reverse.dropWhile pyIsSpace).reverse⟩

/-- Whether the first character list is an initial segment of the second. -/
def leadsWith : List Char → List Char → Bool
  | [], _ => true
  | _ :: _, [] => false
  | a :: as, b :: bs => a == b && leadsWith as bs

/-- Model of Python substring containment `needle in hay` (contiguous). -/
def pyContains (needle : List Char) : List Char → Bool
  | [] => needle.isEmpty
  | c :: t => leadsWith needle (c :: t) || pyContains needle t

/-- Containment lifted to strings: `pyIn needle hay` models `needle in hay`. -/
def pyIn (needle hay : String) : Bool := pyContains needle.data hay.data

/-- Lexicographic comparison of character lists by code point, the order
Python uses to compare strings (here: the sort keys produced by `str.lower`). -/
def lexLe : List Char → List Char → Bool
  | [], _ => true
  | _ :: _, [] => false
  | a :: as, b :: bs =>
    if a.toNat < b.toNat then true
    else if a.toNat = b.toNat then lexLe as bs
    else false

/-- Case-insensitive comparison: the effect of `sort(key=str.lower)`'s key. -/
def lowerLe (a b : String) : Bool := lexLe (a.data.map pyLowerChar) (b.data.map pyLowerChar)

/-- Propositional form of `lowerLe`, used as the sorting relation. -/
def lowerRel (a b : String) : Prop := lowerLe a b = true

instance : DecidableRel lowerRel := fun a b => by unfold lowerRel; infer_instance

/-- Model of POSIX `os.path.join` for the two-argument calls the program makes. -/
def os_path_join (a b : String) : String :=
  if b.data.head? = some '/' then b
  else if a.data = [] || a.data.getLast? = some '/' then a ++ b
  else a ++ "/" ++ b

/-- Model of POSIX `os.path.basename`: everything after the last slash. -/
def os_path_basename (p : String) : String :=
  ⟨(p.data.reverse.takeWhile (fun c => c ≠ '/')).reverse⟩

/-- Model of POSIX `os.path.dirname`: everything up to the last slash, with
trailing slashes stripped unless the result is all slashes. -/
def os_path_dirname (p : String) : String :=
  let head := (p.data.reverse.dropWhile (fun c => c ≠ '/')).reverse
  if head.isEmpty || head.all (fun c => c = '/') then ⟨head⟩
  else ⟨(head.reverse.dropWhile (fun c => c = '/')).reverse⟩

/-- Index of the last occurrence of `c`, or `-1` when absent
(Python `str.rfind`). -/
def charsRFind (c : Char) (l : List Char) : Int :=
  match l.reverse.findIdx? (fun x => x == c) with
  | none => -1
  | some k => (l.length : Int) - 1 - k

/-- Model of POSIX `os.path.splitext`: split at the last dot of the final
component, unless the final component consists only of leading dots. -/
def splitext (p : String) : String × String :=
  let cs := p.data
  let sepIndex := charsRFind '/' cs
  let dotIndex := charsRFind '.' cs
  if sepIndex < dotIndex then
    let between := (cs.drop (sepIndex + 1).toNat).take (dotIndex - sepIndex - 1).toNat
    if between.any (fun c => c ≠ '.') then
      (⟨cs.take dotIndex.toNat⟩, ⟨cs.drop dotIndex.toNat⟩)
    else (p, "")
  else (p, "")

/-
Navigation history (Filey.__init__ lines 235-236, Filey.load_path lines
424-427, FileyWindow.go_back / go_forward lines 681-693).
-/

/-- The navigation-history state: `self.history` and `self.history_index`.
The index is an integer because it starts at `-1` before any navigation. -/
structure HistoryState where
  history : List String
  history_index : Int
deriving DecidableEq

/-- Initial history state set up in `Filey.__init__`. -/
def initHistory : HistoryState := { history := [], history_index := -1 }

/-- The `add_history` branch of `Filey.load_path`:
`self.history = self.history[:self.history_index + 1]`,
`self.history.append(path)`, `self.history_index += 1`. -/
def push (s : HistoryState) (path : String) : HistoryState :=
  { history := s.history.take (s.history_index + 1).toNat ++ [path],
    history_index := s.history_index + 1 }

/-- `FileyWindow.go_back`: guarded decrement; also returns the path the
window then loads (with `add_history=False`), or `none` when it is a no-op. -/
def go_back (s : HistoryState) : HistoryState × Option String :=
  if 0 < s.history_index then
    ({ s with history_index := s.history_index - 1 },
     s.history.get? (s.history_index - 1).toNat)
  else (s, none)

/-- `FileyWindow.go_forward`: guarded increment; also returns the path the
window then loads, or `none` when it is a no-op. -/
def go_forward (s : HistoryState) : HistoryState × Option String :=
  if s.history_index < (s.history.length : Int) - 1 then
    ({ s with history_index := s.history_index + 1 },
     s.history.get? (s.history_index + 1).toNat)
  else (s, none)

/-- The spec's history invariant: `0 ≤ cursor < length(entries)`. -/
def histInv (s : HistoryState) : Prop :=
  0 ≤ s.history_index ∧ s.history_index < (s.history.length : Int)

/-
Directory scanner (Worker.run, lines 157-201).
-/

/-- Classification of a directory child as made by `Worker.run`:
`os.path.isdir`, `os.path.isfile`, or neither (broken symlink, socket, FIFO). -/
inductive FKind
  | dir
  | file
  | other
deriving DecidableEq

/-- One child of the scanned directory as the OS reports it: its name, its
classification, and — for regular files — what `os.path.getsize` returns,
`none` meaning the stat call raises. -/
structure DirEnt where
  name : String
  kind : FKind
  size : Option Nat
deriving DecidableEq

/-- The row structure `Worker.run` emits for every listed object. -/
structure Entry where
  name : String
  full_path : String
  is_folder : Bool
  size_text : String
deriving DecidableEq

/-- `os.path.isdir` on a scanned child. -/
def is_dir (e : DirEnt) : Bool := e.kind == FKind.dir

/-- `os.path.isfile` on a scanned child. -/
def is_file (e : DirEnt) : Bool := e.kind == FKind.file

/-- One decimal digit of an exact rational `num/den`, rounded to nearest with
ties to even — the rounding CPython's `%.1f` formatting applies. -/
def fmtOneDecimal (num den : Nat) : String :=
  let t := num * 10
  let q0 := t / den
  let r := t % den
  let q := if den < 2 * r || (den = 2 * r && q0 % 2 = 1) then q0 + 1 else q0
  Nat.repr (q / 10) ++ "." ++ Nat.repr (q % 10)

/-- Loop of `sizeof_fmt` (lines 41-46): repeatedly divide by 1024 until the
value drops below 1024 or the unit list is exhausted.  The running float
`num / 1024^k` is carried exactly as the pair `(num, den)`. -/
def sizeof_fmt_go (num den : Nat) : List String → String
  | [] => fmtOneDecimal num den ++ " YB"
  | u :: us =>
    if num < 1024 * den then fmtOneDecimal num den ++ " " ++ u ++ "B"
    else sizeof_fmt_go num (den * 1024) us

/-- `sizeof_fmt` (lines 41-46) on a byte count (sizes are nonnegative, so the
`abs` in the source is the identity). -/
def sizeof_fmt (num : Nat) : String :=
  sizeof_fmt_go num 1 ["", "K", "M", "G", "T", "P", "E", "Z"]

/-- `os.path.getsize(os.path.join(self.path, name))` against the scanned
listing: the size field of the entry bearing that name. -/
def getsize (entries : List DirEnt) (n : String) : Option Nat :=
  (entries.find? (fun e => e.name == n)).bind DirEnt.size

/-- The `size_text` computed for a file row (lines 186-190): the formatted
size, or the empty string when the stat call raises. -/
def size_text_of (entries : List DirEnt) (n : String) : String :=
  match getsize entries n with
  | some sz => sizeof_fmt sz
  | none => ""

/-- `list.sort(key=str.lower)`: a stable sort under the case-insensitive
order (CPython's sort is stable; a stable insertion sort is extensionally
the same function). -/
def sortNames (l : List String) : List String := List.insertionSort lowerRel l

/-- `Worker.run` (lines 157-201): classify the listing into folders and
files (anything else is dropped), sort each group case-insensitively, then
emit folder rows followed by file rows.  The `none` input is the case where
`os.listdir` raises: the handler at lines 200-201 emits the empty list. -/
def workerRun (path : String) (listing : Option (List DirEnt)) : List Entry :=
  match listing with
  | none => []
  | some entries =>
    let folders := sortNames ((entries.filter is_dir).map DirEnt.name)
    let files := sortNames ((entries.filter is_file).map DirEnt.name)
    (folders.map fun n =>
      { name := n, full_path := os_path_join path n, is_folder := true, size_text := "" }) ++
    (files.map fun n =>
      { name := n, full_path := os_path_join path n, is_folder := false,
        size_text := size_text_of entries n })

/-
Search filter (Filey.search_items, lines 543-549).
-/

/-- `Filey.search_items`: strip and lowercase the query; an empty result
re-renders the stored full scan result, otherwise the rows whose lowered
name contains the query. -/
def search_items (full_entry_list : List Entry) (text : String) : List Entry :=
  let t := pyLower (pyStrip text)
  if t = "" then full_entry_list
  else full_entry_list.filter (fun e => pyIn t (pyLower e.name))

/-
Paste collision policy (Filey.paste_item lines 390-417, unique_path lines
398-408).  `os.path.exists` is modelled against the list of paths that
exist; the loop's unbounded `while True` is given the fuel
`existing.length + 1`, which is proved sufficient below.
-/

/-- The candidate name `f"{base} - Copy{i}{ext}"`. -/
def copyName (base ext : String) (i : Nat) : String :=
  base ++ " - Copy" ++ Nat.repr i ++ ext

/-- The `while True` loop of `unique_path`: try `i, i+1, ...` until a
candidate is not taken, giving up (only) when the fuel runs out. -/
def copy_loop (existing : List String) (base ext : String) : Nat → Nat → Option String
  | 0, _ => none
  | fuel + 1, i =>
    if copyName base ext i ∈ existing then copy_loop existing base ext fuel (i + 1)
    else some (copyName base ext i)

/-- `unique_path` (lines 398-408): the path itself when unused, otherwise
the first free ` - Copy<N>` variant starting from `N = 1`. -/
def unique_path (existing : List String) (path : String) : String :=
  if path ∈ existing then
    match copy_loop existing (splitext path).1 (splitext path).2 (existing.length + 1) 1 with
    | some p => p
    | none => path
  else path

/-- Destination chosen by `Filey.paste_item` (lines 394-409):
`os.path.join(self.current_path, os.path.basename(src))` made unique. -/
def paste_dest (existing : List String) (current_path src : String) : String :=
  unique_path existing (os_path_join current_path (os_path_basename src))

/-
File-operation handlers (lines 318-417 and 573-597).  The filesystem is a
list of (absolute path, is-directory) pairs.  Each handler returns the new
filesystem together with the `load_path` call it issues — `none` when the
handler returns without re-scanning (input rejected, or the OS call raised
and the handler fell into its `except` arm).  OS-call failure is modelled by
its cause observable in this closed world: a missing source or an already
existing destination.
-/

/-- Arguments of a `self.load_path(...)` call. -/
structure LoadRequest where
  path : String
  add_history : Bool
  animate : Bool
deriving DecidableEq

/-- `os.path.exists` against the modelled filesystem. -/
def fs_exists (fs : List (String × Bool)) (p : String) : Bool :=
  fs.any (fun q => q.1 == p)

/-- `os.path.isdir` against the modelled filesystem. -/
def fs_isdir (fs : List (String × Bool)) (p : String) : Bool :=
  fs.any (fun q => q.1 == p && q.2)

/-- Rewrites the filesystem for `os.rename`/`shutil.move` of `old_path` to
`new_path`: the path itself and every path below it move. -/
def fs_rename (fs : List (String × Bool)) (old_path new_path : String) :
    List (String × Bool) :=
  fs.map fun q =>
    if q.1 == old_path then (new_path, q.2)
    else if leadsWith (old_path ++ "/").data q.1.data then
      (new_path ++ (⟨q.1.data.drop old_path.data.length⟩ : String), q.2)
    else q

/-- `Filey.create_folder` (lines 318-326): on a confirmed non-blank name,
`os.mkdir` then an unanimated re-scan; `mkdir` raising (destination already
present) lands in the `except` arm, which only shows a warning. -/
def create_folder (fs : List (String × Bool)) (current_path : String)
    (ok : Bool) (name : String) : List (String × Bool) × Option LoadRequest :=
  if ok && pyStrip name ≠ "" then
    let new_path := os_path_join current_path (pyStrip name)
    if fs_exists fs new_path then (fs, none)
    else (fs ++ [(new_path, true)], some ⟨current_path, false, false⟩)
  else (fs, none)

/-- `Filey.create_file` (lines 328-340): an explicit existence pre-check
aborts with a warning; otherwise the file is created and the handler
re-scans without animation. -/
def create_file (fs : List (String × Bool)) (current_path : String)
    (ok : Bool) (name : String) : List (String × Bool) × Option LoadRequest :=
  if ok && pyStrip name ≠ "" then
    let new_path := os_path_join current_path (pyStrip name)
    if fs_exists fs new_path then (fs, none)
    else (fs ++ [(new_path, false)], some ⟨current_path, false, false⟩)
  else (fs, none)

/-- `Filey.delete_item` (lines 342-362): with a selection and the user's
confirmation, remove the object (and its subtree) and re-scan without
animation; a raising `rmtree`/`remove` (missing path) only warns. -/
def delete_item (fs : List (String × Bool)) (current_path : String)
    (selected : Option (String × Bool)) (confirmed : Bool) :
    List (String × Bool) × Option LoadRequest :=
  match selected with
  | none => (fs, none)
  | some sel =>
    if confirmed then
      if fs_exists fs sel.1 then
        (fs.filter (fun q => !(q.1 == sel.1 || leadsWith (sel.1 ++ "/").data q.1.data)),
         some ⟨current_path, false, false⟩)
      else (fs, none)
    else (fs, none)

/-- `Filey.rename_item` (lines 364-381): a taken new name aborts with a
warning; otherwise `os.rename` then an unanimated re-scan. -/
def rename_item (fs : List (String × Bool)) (current_path : String)
    (selected : Option String) (ok : Bool) (new_name : String) :
    List (String × Bool) × Option LoadRequest :=
  match selected with
  | none => (fs, none)
  | some old_path =>
    if ok && pyStrip new_name ≠ "" then
      let new_path := os_path_join current_path (pyStrip new_name)
      if fs_exists fs new_path then (fs, none)
      else if fs_exists fs old_path then
        (fs_rename fs old_path new_path, some ⟨current_path, false, false⟩)
      else (fs, none)
    else (fs, none)

/-- `Filey.paste_item` (lines 390-417): with a live clipboard source, copy
it under the collision-free name and re-scan without animation.  (Children
of a copied directory are not tracked; only the new top-level path is.) -/
def paste_item (fs : List (String × Bool)) (current_path : String)
    (clipboard : Option String) : List (String × Bool) × Option LoadRequest :=
  match clipboard with
  | none => (fs, none)
  | some src =>
    if fs_exists fs src then
      let dest_unique := paste_dest (fs.map Prod.fst) current_path src
      (fs ++ [(dest_unique, fs_isdir fs src)], some ⟨current_path, false, false⟩)
    else (fs, none)

/-- Target-directory selection of `Filey.dropEvent` (lines 575-582): the
item under the cursor when it is a directory, its containing directory when
it is a file, the current path when the drop hits empty space. -/
def drop_target (fs : List (String × Bool)) (current_path : String)
    (item : Option String) : String :=
  match item with
  | some p => if fs_isdir fs p then p else os_path_dirname p
  | none => current_path

/-- One iteration of the move loop in `Filey.dropEvent` (lines 584-594):
a drop onto the source's own location is skipped; a failing `shutil.move`
warns and leaves the filesystem as it was. -/
def move_one (fs : List (String × Bool)) (target src : String) :
    List (String × Bool) :=
  let dest := os_path_join target (os_path_basename src)
  if src = dest then fs
  else if fs_exists fs src && !fs_exists fs dest then fs_rename fs src dest
  else fs

/-- `Filey.dropEvent` (lines 573-597): move every dragged url, then —
unconditionally — re-scan the current path with animation. -/
def dropEvent (fs : List (String × Bool)) (current_path : String)
    (urls : List String) (item : Option String) :
    List (String × Bool) × LoadRequest :=
  let target := drop_target fs current_path item
  (urls.foldl (fun acc src => move_one acc target src) fs,
   ⟨current_path, false, true⟩)

/-
Settings persistence and theme validation (save_settings / load_settings
lines 23-38, Filey.save_session lines 267-274, the theme check in
Filey.__init__ lines 216-231).  The JSON document written by `json.dump`
and read back by `json.load` is modelled as a JSON value tree; `json`
round-trips objects of strings and numbers identically.
-/

/-- A JSON value as far as the settings document needs. -/
inductive JVal
  | str (s : String)
  | num (n : Int)
  | obj (kvs : List (String × JVal))

/-- Key lookup in a JSON object (Python `dict` access / `dict.get`). -/
def jlookup : List (String × JVal) → String → Option JVal
  | [], _ => none
  | (k, v) :: rest, key => if k == key then some v else jlookup rest key

/-- `dict.get(key, default)` on a settings value. -/
def settings_get (j : JVal) (key : String) (dflt : JVal) : JVal :=
  match j with
  | .obj kvs => (jlookup kvs key).getD dflt
  | _ => dflt

/-- Python `k in theme_loaded` for a dict value (`false` on non-objects). -/
def jhas (j : JVal) (key : String) : Bool :=
  match j with
  | .obj kvs => (jlookup kvs key).isSome
  | _ => false

/-- The five color-role keys, the key set of `DEFAULT_THEMES["Dark"]`. -/
def theme_keys : List String :=
  ["background", "text", "selected_bg", "hover_bg", "tooltip_bg"]

/-- `DEFAULT_THEMES["Dark"]` (lines 57-63), the fallback theme. -/
def darkTheme : List (String × JVal) :=
  [("background", .str "#1e1e1e"), ("text", .str "#dddddd"),
   ("selected_bg", .str "#007acc"), ("hover_bg", .str "#094771"),
   ("tooltip_bg", .str "#333333")]

/-- The in-memory session state that `Filey.save_session` persists. -/
structure SettingsData where
  last_path : String
  anim_duration : Int
  anim_type : String
  theme : List (String × JVal)

/-- `Filey.save_session` + `save_settings`: the JSON document written. -/
def save_session_json (d : SettingsData) : JVal :=
  .obj [("last_path", .str d.last_path), ("anim_duration", .num d.anim_duration),
        ("anim_type", .str d.anim_type), ("theme", .obj d.theme)]

/-- The theme-selection logic of `Filey.__init__` (lines 216-231) applied to
the loaded settings file (`none`: missing or unparseable, `load_settings`
returned `None`): accept the stored theme only when every one of the five
keys is present, otherwise fall back to the Dark default. -/
def load_theme (settings_file : Option JVal) : JVal :=
  match settings_file with
  | some settings =>
    let theme_loaded := settings_get settings "theme" (.obj darkTheme)
    if theme_keys.all (fun k => jhas theme_loaded k) then theme_loaded
    else .obj darkTheme
  | none => .obj darkTheme

instance : DecidablePred histInv := fun s => by unfold histInv; infer_instance

/-- Concrete listing used by the scan witnesses: one folder, one readable
file, one unreadable file, and one entry that is neither. -/
def exampleListing : List DirEnt :=
  [{ name := "b.txt", kind := FKind.file, size := some 10 },
   { name := "Adir", kind := FKind.dir, size := none },
   { name := "weird", kind := FKind.other, size := none },
   { name := "a.txt", kind := FKind.file, size := none }]

/-- Concrete entry list from the spec's search example: `Apps`, `app.txt`
and `readme.md`. -/
def exampleEntries : List Entry :=
  [{ name := "Apps", full_path := "/p/Apps", is_folder := true, size_text := "" },
   { name := "app.txt", full_path := "/p/app.txt", is_folder := false, size_text := "1.0 KB" },
   { name := "readme.md", full_path := "/p/readme.md", is_folder := false, size_text := "2.0 KB" }]

/-- Decimal digit list of a natural number, the mathematical specification
of what `Nat.toDigitsCore` computes with its fuel; used to prove that the
decimal rendering in `copyName` is injective. -/
def decimalChars (n : Nat) : List Char :=
  if h : n < 10 then [Nat.digitChar n]
  else decimalChars (n / 10) ++ [Nat.digitChar (n % 10)]
decreasing_by
  exact Nat.div_lt_self (by omega) (by omega)

/-
Theorems.
-/

/-- C1.  Navigation operations: `push` truncates everything past the cursor,
appends the path and advances the cursor; `go_back` is a no-op at cursor 0
and otherwise decrements the cursor and returns the entry there; `go_forward`
is a no-op at the last index and otherwise increments and returns the entry
there; neither `go_back` nor `go_forward` changes the entries.  The concrete
trace `push a; push b; push c; back; back; push d` ends with history
`[a, d]`, cursor 1, and a no-op `forward`. -/
theorem history_navigation_spec (s : HistoryState) (p : String) :
    (histInv s →
      (push s p).history = s.history.take (s.history_index.toNat + 1) ++ [p] ∧
      (push s p).history_index = s.history_index + 1) ∧
    (s.history_index = 0 → go_back s = (s, none)) ∧
    (histInv s → 0 < s.history_index →
      (go_back s).1.history = s.history ∧
      (go_back s).1.history_index = s.history_index - 1 ∧
      (go_back s).2 = s.history.get? (s.history_index - 1).toNat ∧
      ((go_back s).2).isSome = true) ∧
    (s.history_index = (s.history.length : Int) - 1 → go_forward s = (s, none)) ∧
    (histInv s → s.history_index < (s.history.length : Int) - 1 →
      (go_forward s).1.history = s.history ∧
      (go_forward s).1.history_index = s.history_index + 1 ∧
      (go_forward s).2 = s.history.get? (s.history_index + 1).toNat ∧
      ((go_forward s).2).isSome = true) ∧
    ((go_back s).1.history = s.history ∧ (go_forward s).1.history = s.history) ∧
    ((push ((go_back ((go_back (push (push (push initHistory "a") "b") "c")).1)).1) "d").history
        = ["a", "d"] ∧
     (push ((go_back ((go_back (push (push (push initHistory "a") "b") "c")).1)).1) "d").history_index
        = 1 ∧
     go_forward (push ((go_back ((go_back (push (push (push initHistory "a") "b") "c")).1)).1) "d")
        = (push ((go_back ((go_back (push (push (push initHistory "a") "b") "c")).1)).1) "d", none)) := by
  refine ⟨?_, ?_, ?_, ?_, ?_, ?_, ?_⟩
  · rintro ⟨h0, _⟩
    have ht : (s.history_index + 1).toNat = s.history_index.toNat + 1 := by omega
    simp [push, ht]
  · intro h
    simp [go_back, h]
  · rintro ⟨h0, hlen⟩ hpos
    have hb : (s.history_index - 1).toNat < s.history.length := by omega
    have hgb : go_back s =
        ({ s with history_index := s.history_index - 1 },
         s.history.get? (s.history_index - 1).toNat) := by
      rw [go_back, if_pos hpos]
    rw [hgb, List.get?_eq_get hb]
    exact ⟨rfl, rfl, rfl, rfl⟩
  · intro h
    have : ¬ s.history_index < (s.history.length : Int) - 1 := by omega
    simp [go_forward, this]
  · rintro ⟨h0, hlen⟩ hlt
    have hb : (s.history_index + 1).toNat < s.history.length := by omega
    have hgf : go_forward s =
        ({ s with history_index := s.history_index + 1 },
         s.history.get? (s.history_index + 1).toNat) := by
      rw [go_forward, if_pos hlt]
    rw [hgf, List.get?_eq_get hb]
    exact ⟨rfl, rfl, rfl, rfl⟩
  · constructor
    · unfold go_back; split <;> rfl
    · unfold go_forward; split <;> rfl
  · refine ⟨by decide, by decide, by decide⟩

/-- Witness for C1: the `push` clause applied at a concrete invariant state. -/
theorem history_navigation_spec_witness :
    (push { history := ["x"], history_index := 0 } "y").history = ["x", "y"] ∧
    (push { history := ["x"], history_index := 0 } "y").history_index = 1 := by
  have h := (history_navigation_spec { history := ["x"], history_index := 0 } "y").1 (by decide)
  exact ⟨by rw [h.1]; rfl, h.2⟩

/-- C2.  The invariant `0 ≤ cursor < length` holds after the first `push`
(even from the pre-navigation state, whose cursor is `-1`) and is preserved
by `push`, `go_back` and `go_forward`. -/
theorem history_invariant (s : HistoryState) (p : String) :
    (-1 ≤ s.history_index → s.history_index < (s.history.length : Int) →
      histInv (push s p)) ∧
    (histInv s → histInv (go_back s).1) ∧
    (histInv s → histInv (go_forward s).1) ∧
    histInv (push initHistory p) := by
  refine ⟨?_, ?_, ?_, ?_⟩
  · intro h0 hlen
    simp only [histInv, push, List.length_append, List.length_take, List.length_cons,
      List.length_nil]
    omega
  · rintro ⟨h0, hlen⟩
    unfold go_back
    split
    · simp only [histInv]
      omega
    · exact ⟨h0, hlen⟩
  · rintro ⟨h0, hlen⟩
    unfold go_forward
    split
    · next hlt =>
      simp only [histInv]
      omega
    · exact ⟨h0, hlen⟩
  · refine ⟨by simp [push, initHistory], ?_⟩
    simp [push, initHistory]

/-- Witness for C2: the invariant established and preserved at concrete states. -/
theorem history_invariant_witness :
    histInv (push { history := ["x"], history_index := 0 } "y") ∧
    histInv (go_back { history := ["x", "y"], history_index := 1 }).1 :=
  ⟨(history_invariant { history := ["x"], history_index := 0 } "y").1 (by decide) (by decide),
   (history_invariant { history := ["x", "y"], history_index := 1 } "z").2.1 (by decide)⟩

/-- C6.  When `os.listdir` raises (permission denied, vanished or
non-existent path) the scan result is the empty sequence — the same value a
genuinely empty directory produces, so the two are indistinguishable and no
error reaches the caller. -/
theorem scan_failure_empty (path : String) :
    workerRun path none = [] ∧ workerRun path (some []) = [] ∧
    workerRun path none = workerRun path (some []) := by
  refine ⟨rfl, ?_, ?_⟩ <;> simp [workerRun, sortNames]

theorem lexLe_total (a b : List Char) : lexLe a b = true ∨ lexLe b a = true := by
  induction a generalizing b with
  | nil => left; rfl
  | cons x xs ih =>
    cases b with
    | nil => right; rfl
    | cons y ys =>
      rcases Nat.lt_trichotomy x.toNat y.toNat with h | h | h
      · left; simp [lexLe, h]
      · rcases ih ys with h2 | h2
        · left; simp [lexLe, h, h2]
        · right; simp [lexLe, h.symm, h2, Nat.lt_irrefl]
      · right; simp [lexLe, h]

theorem lexLe_trans (a b c : List Char) (h1 : lexLe a b = true) (h2 : lexLe b c = true) :
    lexLe a c = true := by
  induction a generalizing b c with
  | nil => rfl
  | cons x xs ih =>
    cases b with
    | nil => simp [lexLe] at h1
    | cons y ys =>
      cases c with
      | nil => simp [lexLe] at h2
      | cons z zs =>
        simp only [lexLe] at h1 h2 ⊢
        by_cases hxy : x.toNat < y.toNat
        · by_cases hyz : y.toNat < z.toNat
          · have hxz : x.toNat < z.toNat := by omega
            simp [hxz]
          · by_cases hyz2 : y.toNat = z.toNat
            · have hxz : x.toNat < z.toNat := by omega
              simp [hxz]
            · simp [hyz, hyz2] at h2
        · by_cases hxy2 : x.toNat = y.toNat
          · simp [hxy, hxy2] at h1
            by_cases hyz : y.toNat < z.toNat
            · have hxz : x.toNat < z.toNat := by omega
              simp [hxz]
            · by_cases hyz2 : y.toNat = z.toNat
              · simp [hyz, hyz2] at h2
                have hxz : ¬ x.toNat < z.toNat := by omega
                have hxz2 : x.toNat = z.toNat := by omega
                simp [hxz, hxz2]
                exact ih ys zs h1 h2
              · simp [hyz, hyz2] at h2
          · simp [hxy, hxy2] at h1

theorem sortNames_sorted (l : List String) : (sortNames l).Pairwise lowerRel := by
  haveI : IsTotal String lowerRel := ⟨fun x y => lexLe_total _ _⟩
  haveI : IsTrans String lowerRel := ⟨fun x y z => lexLe_trans _ _ _⟩
  exact List.sorted_insertionSort lowerRel l

theorem sortNames_perm (l : List String) : List.Perm (sortNames l) l :=
  List.perm_insertionSort lowerRel l

theorem mem_sortNames {n : String} {l : List String} (h : n ∈ l) : n ∈ sortNames l :=
  ((sortNames_perm l).mem_iff).mpr h

theorem find?_of_name_nodup (l : List DirEnt) (e : DirEnt)
    (h : (l.map DirEnt.name).Nodup) (he : e ∈ l) :
    l.find? (fun x => x.name == e.name) = some e := by
  induction l with
  | nil => cases he
  | cons a t ih =>
    rcases List.mem_cons.mp he with rfl | ht
    · simp [List.find?]
    · have hne : a.name ≠ e.name := by
        intro hcontra
        have : e.name ∈ t.map DirEnt.name := List.mem_map_of_mem DirEnt.name ht
        rw [← hcontra] at this
        exact (List.nodup_cons.mp h).1 this
      have : (a.name == e.name) = false := beq_false_of_ne hne
      simp only [List.find?, this]
      exact ih (List.nodup_cons.mp h).2 ht

theorem getsize_of_mem (entries : List DirEnt) (e : DirEnt)
    (h : (entries.map DirEnt.name).Nodup) (he : e ∈ entries) :
    getsize entries e.name = e.size := by
  rw [getsize, find?_of_name_nodup entries e h he]
  rfl

/-- The folder rows of one scan. -/
theorem workerRun_decomp (path : String) (entries : List DirEnt) :
    workerRun path (some entries) =
      ((sortNames ((entries.filter is_dir).map DirEnt.name)).map fun n =>
        { name := n, full_path := os_path_join path n, is_folder := true,
          size_text := "" : Entry }) ++
      ((sortNames ((entries.filter is_file).map DirEnt.name)).map fun n =>
        { name := n, full_path := os_path_join path n, is_folder := false,
          size_text := size_text_of entries n : Entry }) := rfl

/-- C10 (implicit).  Directory children that are neither directories nor
regular files are silently absent from the scan result: the result has
exactly one row per directory plus one per regular file, and every row's
name comes from a child classified as directory or regular file. -/
theorem scanner_omits_special_entries (path : String) (l : List DirEnt) :
    (workerRun path (some l)).length =
      (l.filter is_dir).length + (l.filter is_file).length ∧
    (∀ r ∈ workerRun path (some l),
      ∃ e, e ∈ l ∧ e.name = r.name ∧ (is_dir e || is_file e) = true ∧
        r.is_folder = is_dir e) := by
  constructor
  · rw [workerRun_decomp, List.length_append, List.length_map, List.length_map,
      (sortNames_perm _).length_eq, (sortNames_perm _).length_eq,
      List.length_map, List.length_map]
  · intro r hr
    rw [workerRun_decomp] at hr
    rcases List.mem_append.mp hr with hf | hf
    · rcases List.mem_map.mp hf with ⟨n, hn, rfl⟩
      have hn2 : n ∈ (l.filter is_dir).map DirEnt.name := ((sortNames_perm _).mem_iff).mp hn
      rcases List.mem_map.mp hn2 with ⟨e, he, rfl⟩
      have hd : is_dir e = true := List.of_mem_filter he
      exact ⟨e, List.mem_of_mem_filter he, rfl, by simp [hd], by simp [hd]⟩
    · rcases List.mem_map.mp hf with ⟨n, hn, rfl⟩
      have hn2 : n ∈ (l.filter is_file).map DirEnt.name := ((sortNames_perm _).mem_iff).mp hn
      rcases List.mem_map.mp hn2 with ⟨e, he, rfl⟩
      have hfi : is_file e = true := List.of_mem_filter he
      have hd : is_dir e = false := by
        cases hk : e.kind <;> simp_all [is_dir, is_file]
      exact ⟨e, List.mem_of_mem_filter he, rfl, by simp [hfi], by simp [hd]⟩

/-- Witness for C10 at a concrete listing containing an `other` entry. -/
theorem scanner_omits_special_entries_witness :
    ∃ e, e ∈ exampleListing ∧
      e.name = (Entry.mk "Adir" "/p/Adir" true "").name ∧
      (is_dir e || is_file e) = true ∧
      (Entry.mk "Adir" "/p/Adir" true "").is_folder = is_dir e :=
  (scanner_omits_special_entries "/p" exampleListing).2
    (Entry.mk "Adir" "/p/Adir" true "") (by decide)

/-- C3.  A scan lists every folder row before every file row, each group
sorted case-insensitively by name; every regular file of the listing —
readable or not — contributes a row, the unreadable ones with empty
`size_text` and the readable ones with their formatted size.  (The
hypothesis that listed names are distinct is what `os.listdir` guarantees.) -/
theorem worker_scan_spec (path : String) (entries : List DirEnt)
    (hn : (entries.map DirEnt.name).Nodup) :
    workerRun path (some entries) =
      (workerRun path (some entries)).filter (fun r => r.is_folder) ++
      (workerRun path (some entries)).filter (fun r => !r.is_folder) ∧
    ((workerRun path (some entries)).filter (fun r => r.is_folder)).Pairwise
      (fun a b => lowerLe a.name b.name = true) ∧
    ((workerRun path (some entries)).filter (fun r => !r.is_folder)).Pairwise
      (fun a b => lowerLe a.name b.name = true) ∧
    ((workerRun path (some entries)).filter (fun r => !r.is_folder)).length =
      (entries.filter is_file).length ∧
    (∀ e ∈ entries, is_file e = true →
      ({ name := e.name, full_path := os_path_join path e.name, is_folder := false,
         size_text := match e.size with | some sz => sizeof_fmt sz | none => "" } : Entry)
        ∈ workerRun path (some entries)) ∧
    (∀ e ∈ entries, is_dir e = true →
      ({ name := e.name, full_path := os_path_join path e.name, is_folder := true,
         size_text := "" } : Entry) ∈ workerRun path (some entries)) := by
  have hAall : ∀ r ∈ ((sortNames ((entries.filter is_dir).map DirEnt.name)).map fun n =>
      { name := n, full_path := os_path_join path n, is_folder := true,
        size_text := "" : Entry }), r.is_folder = true := by
    intro r hr
    rcases List.mem_map.mp hr with ⟨n, _, rfl⟩
    rfl
  have hBall : ∀ r ∈ ((sortNames ((entries.filter is_file).map DirEnt.name)).map fun n =>
      { name := n, full_path := os_path_join path n, is_folder := false,
        size_text := size_text_of entries n : Entry }), r.is_folder = false := by
    intro r hr
    rcases List.mem_map.mp hr with ⟨n, _, rfl⟩
    rfl
  have hfold : (workerRun path (some entries)).filter (fun r => r.is_folder) =
      ((sortNames ((entries.filter is_dir).map DirEnt.name)).map fun n =>
        { name := n, full_path := os_path_join path n, is_folder := true,
          size_text := "" : Entry }) := by
    rw [workerRun_decomp, List.filter_append, List.filter_map, List.filter_map]
    rw [show ((fun r : Entry => r.is_folder) ∘ fun n =>
          ({ name := n, full_path := os_path_join path n, is_folder := true,
             size_text := "" } : Entry)) = fun _ => true from rfl]
    rw [show ((fun r : Entry => r.is_folder) ∘ fun n =>
          ({ name := n, full_path := os_path_join path n, is_folder := false,
             size_text := size_text_of entries n } : Entry)) = fun _ => false from rfl]
    simp
  have hfile : (workerRun path (some entries)).filter (fun r => !r.is_folder) =
      ((sortNames ((entries.filter is_file).map DirEnt.name)).map fun n =>
        { name := n, full_path := os_path_join path n, is_folder := false,
          size_text := size_text_of entries n : Entry }) := by
    rw [workerRun_decomp, List.filter_append, List.filter_map, List.filter_map]
    rw [show ((fun r : Entry => !r.is_folder) ∘ fun n =>
          ({ name := n, full_path := os_path_join path n, is_folder := true,
             size_text := "" } : Entry)) = fun _ => false from rfl]
    rw [show ((fun r : Entry => !r.is_folder) ∘ fun n =>
          ({ name := n, full_path := os_path_join path n, is_folder := false,
             size_text := size_text_of entries n } : Entry)) = fun _ => true from rfl]
    simp
  refine ⟨?_, ?_, ?_, ?_, ?_, ?_⟩
  · rw [hfold, hfile]
    exact workerRun_decomp path entries
  · rw [hfold]
    exact List.Pairwise.map _ (fun a b h => h) (sortNames_sorted _)
  · rw [hfile]
    exact List.Pairwise.map _ (fun a b h => h) (sortNames_sorted _)
  · rw [hfile, List.length_map, (sortNames_perm _).length_eq, List.length_map]
  · intro e he hf
    have hs : size_text_of entries e.name =
        (match e.size with | some sz => sizeof_fmt sz | none => "") := by
      rw [size_text_of, getsize_of_mem entries e hn he]
    rw [workerRun_decomp]
    refine List.mem_append_right _ ?_
    rw [← hs]
    exact List.mem_map_of_mem _
      (mem_sortNames (List.mem_map_of_mem DirEnt.name (List.mem_filter.mpr ⟨he, hf⟩)))
  · intro e he hd
    rw [workerRun_decomp]
    refine List.mem_append_left _ ?_
    exact List.mem_map_of_mem _
      (mem_sortNames (List.mem_map_of_mem DirEnt.name (List.mem_filter.mpr ⟨he, hd⟩)))

/-- Witness for C3: the file-count clause at the concrete listing (its two
regular files — one unreadable — both appear). -/
theorem worker_scan_spec_witness :
    ((workerRun "/p" (some exampleListing)).filter (fun r => !r.is_folder)).length =
      (exampleListing.filter is_file).length :=
  (worker_scan_spec "/p" exampleListing (by decide)).2.2.2.1

theorem digitChar_toNat (n : Nat) (h : n < 10) : (Nat.digitChar n).toNat = n + 48 := by
  interval_cases n <;> rfl

theorem toDigitsCore_decimal (fuel : Nat) :
    ∀ (n : Nat) (ds : List Char), n < fuel →
      Nat.toDigitsCore 10 fuel n ds = decimalChars n ++ ds := by
  induction fuel with
  | zero => intro n ds h; omega
  | succ f ih =>
    intro n ds h
    by_cases h10 : n / 10 = 0
    · have hn : n < 10 := by omega
      simp only [Nat.toDigitsCore, h10, if_pos]
      rw [decimalChars, dif_pos hn, Nat.mod_eq_of_lt hn]
      rfl
    · have hge : ¬ n < 10 := fun hc => h10 (Nat.div_eq_of_lt hc)
      have hlt : n / 10 < f := by
        have := Nat.div_lt_self (show 0 < n by omega) (show 1 < 10 by omega)
        omega
      simp only [Nat.toDigitsCore, h10, if_neg, if_false]
      rw [ih (n / 10) _ hlt]
      have hd : decimalChars n = decimalChars (n / 10) ++ [Nat.digitChar (n % 10)] := by
        rw [decimalChars]
        exact dif_neg hge
      rw [hd]
      simp [List.append_assoc]

theorem decimalChars_foldl (n : Nat) : ∀ a : Nat,
    (decimalChars n).foldl (fun acc c => acc * 10 + (c.toNat - 48)) a =
      a * 10 ^ (decimalChars n).length + n := by
  induction n using Nat.strong_induction_on with
  | _ n ih =>
    intro a
    by_cases h : n < 10
    · have hd : decimalChars n = [Nat.digitChar n] := by rw [decimalChars, dif_pos h]
      rw [hd]
      simp [digitChar_toNat n h]
    · have hd : decimalChars n = decimalChars (n / 10) ++ [Nat.digitChar (n % 10)] := by
        rw [decimalChars, dif_neg h]
      have h2 : n / 10 < n := Nat.div_lt_self (by omega) (by omega)
      rw [hd, List.foldl_append, ih _ h2 a]
      have hm : (Nat.digitChar (n % 10)).toNat = n % 10 + 48 :=
        digitChar_toNat (n % 10) (Nat.mod_lt _ (by omega))
      simp only [List.foldl, hm, List.length_append, List.length_cons, List.length_nil]
      calc (a * 10 ^ (decimalChars (n / 10)).length + n / 10) * 10 + (n % 10 + 48 - 48)
          = a * (10 ^ (decimalChars (n / 10)).length * 10) + (10 * (n / 10) + n % 10) := by
            rw [Nat.add_sub_cancel]
            ring
        _ = a * 10 ^ ((decimalChars (n / 10)).length + 0 + 1) + n := by
            rw [Nat.div_add_mod, pow_succ]

theorem natRepr_data (n : Nat) : (Nat.repr n).data = decimalChars n := by
  show (Nat.toDigits 10 n).asString.data = _
  rw [show Nat.toDigits 10 n = Nat.toDigitsCore 10 (n + 1) n [] from rfl]
  rw [toDigitsCore_decimal (n + 1) n [] (by omega)]
  simp [List.asString]

theorem natRepr_injective {m n : Nat} (h : Nat.repr m = Nat.repr n) : m = n := by
  have hd : decimalChars m = decimalChars n := by
    rw [← natRepr_data, ← natRepr_data, h]
  have h1 := decimalChars_foldl m 0
  have h2 := decimalChars_foldl n 0
  rw [hd] at h1
  have := h1.symm.trans h2
  simpa using this

theorem copyName_inj (base ext : String) {i j : Nat}
    (h : copyName base ext i = copyName base ext j) : i = j := by
  have h' := congrArg String.data h
  simp only [copyName, String.data_append, List.append_assoc] at h'
  have h2 := List.append_cancel_left h'
  have h3 := List.append_cancel_left h2
  have h4 := List.append_cancel_right h3
  exact natRepr_injective (String.ext h4)

theorem copy_loop_none_mem (existing : List String) (base ext : String) :
    ∀ (fuel i : Nat), copy_loop existing base ext fuel i = none →
      ∀ k, k < fuel → copyName base ext (i + k) ∈ existing := by
  intro fuel
  induction fuel with
  | zero => intro i h k hk; omega
  | succ f ih =>
    intro i h k hk
    by_cases hm : copyName base ext i ∈ existing
    · rw [copy_loop, if_pos hm] at h
      cases k with
      | zero => simpa using hm
      | succ k2 =>
        have := ih (i + 1) h k2 (by omega)
        have harr : i + 1 + k2 = i + (k2 + 1) := by omega
        rwa [harr] at this
    · rw [copy_loop, if_neg hm] at h
      cases h

theorem copy_loop_total (existing : List String) (base ext : String) :
    copy_loop existing base ext (existing.length + 1) 1 ≠ none := by
  intro h
  have hmem : ∀ k, k < existing.length + 1 → copyName base ext (1 + k) ∈ existing :=
    copy_loop_none_mem existing base ext _ 1 h
  have hsub : ((List.range (existing.length + 1)).map fun k => copyName base ext (1 + k))
      ⊆ existing := by
    intro x hx
    rcases List.mem_map.mp hx with ⟨k, hk, rfl⟩
    exact hmem k (List.mem_range.mp hk)
  have hinj : Function.Injective fun k => copyName base ext (1 + k) := by
    intro x y hxy
    have := copyName_inj base ext hxy
    omega
  have hnd : ((List.range (existing.length + 1)).map fun k => copyName base ext (1 + k)).Nodup :=
    (List.nodup_range _).map hinj
  have hle := (List.subperm_of_subset hnd hsub).length_le
  simp at hle

theorem copy_loop_spec (existing : List String) (base ext : String) :
    ∀ (fuel i : Nat) (p : String), copy_loop existing base ext fuel i = some p →
      ∃ N, i ≤ N ∧ p = copyName base ext N ∧ copyName base ext N ∉ existing ∧
        ∀ m, i ≤ m → m < N → copyName base ext m ∈ existing := by
  intro fuel
  induction fuel with
  | zero => intro i p h; cases h
  | succ f ih =>
    intro i p h
    by_cases hm : copyName base ext i ∈ existing
    · rw [copy_loop, if_pos hm] at h
      rcases ih (i + 1) p h with ⟨N, hN1, hN2, hN3, hN4⟩
      refine ⟨N, by omega, hN2, hN3, ?_⟩
      intro m hm1 hm2
      rcases Nat.eq_or_lt_of_le hm1 with rfl | hlt
      · exact hm
      · exact hN4 m (by omega) hm2
    · rw [copy_loop, if_neg hm] at h
      cases h
      exact ⟨i, le_refl i, rfl, hm, fun m h1 h2 => by omega⟩

/-- C4.  When the paste destination already exists, the chosen name is
`base ++ " - Copy" ++ N ++ ext` (extension split off by `splitext`) for the
smallest `N ≥ 1` whose result is unused; a destination that does not exist
is kept as is.  Concretely, pasting `note.txt` into a directory already
holding it yields `note - Copy1.txt`, and pasting again yields
`note - Copy2.txt`. -/
theorem paste_collision_spec (existing : List String) (path : String) :
    (path ∈ existing →
      ∃ N, 1 ≤ N ∧
        unique_path existing path = copyName (splitext path).1 (splitext path).2 N ∧
        copyName (splitext path).1 (splitext path).2 N ∉ existing ∧
        ∀ m, 1 ≤ m → m < N → copyName (splitext path).1 (splitext path).2 m ∈ existing) ∧
    (path ∉ existing → unique_path existing path = path) ∧
    splitext "/d/note.txt" = ("/d/note", ".txt") ∧
    unique_path ["/d/note.txt"] "/d/note.txt" = "/d/note - Copy1.txt" ∧
    unique_path ["/d/note.txt", "/d/note - Copy1.txt"] "/d/note.txt" = "/d/note - Copy2.txt" ∧
    paste_dest ["/d/note.txt"] "/d" "/src/note.txt" = "/d/note - Copy1.txt" := by
  refine ⟨?_, ?_, by decide, by decide, by decide, by decide⟩
  · intro hmem
    rcases hp : copy_loop existing (splitext path).1 (splitext path).2 (existing.length + 1) 1 with
      _ | p
    · exact absurd hp (copy_loop_total existing _ _)
    · rcases copy_loop_spec existing _ _ _ 1 p hp with ⟨N, hN1, hN2, hN3, hN4⟩
      refine ⟨N, hN1, ?_, hN3, hN4⟩
      rw [unique_path, if_pos hmem, hp, hN2]
  · intro hmem
    rw [unique_path, if_neg hmem]

/-- Witness for C4: the smallest-free-suffix clause applied at the concrete
one-element directory. -/
theorem paste_collision_spec_witness :
    ∃ N, 1 ≤ N ∧
      unique_path ["/d/note.txt"] "/d/note.txt" =
        copyName (splitext "/d/note.txt").1 (splitext "/d/note.txt").2 N ∧
      copyName (splitext "/d/note.txt").1 (splitext "/d/note.txt").2 N ∉ ["/d/note.txt"] ∧
      ∀ m, 1 ≤ m → m < N →
        copyName (splitext "/d/note.txt").1 (splitext "/d/note.txt").2 m ∈ ["/d/note.txt"] :=
  (paste_collision_spec ["/d/note.txt"] "/d/note.txt").1 (by decide)

theorem pyLower_eq_empty {s : String} : pyLower s = "" ↔ s = "" := by
  constructor
  · intro h
    have hd := congrArg String.data h
    simp only [pyLower, List.map_eq_nil_iff] at hd
    exact String.ext hd
  · intro h
    rw [h]
    rfl

/-- C5 counterexample.  The claim as stated — the result is exactly the
entries whose name contains the (unstripped) text case-insensitively — fails
for the text `"app "`: the code strips the query first, so `Apps` and
`app.txt` are kept although neither lowered name contains `"app "`. -/
theorem search_filter_claim_counterexample :
    search_items exampleEntries "app " ≠
      exampleEntries.filter (fun e => pyIn (pyLower "app ") (pyLower e.name)) := by
  decide

/-- C5 (amended).  Filtering re-renders, from the stored full scan result
and in original relative order with all fields intact, exactly the entries
whose name contains the whitespace-stripped text case-insensitively; a text
that is empty (or whitespace only, hence stripped to empty) restores the
full unfiltered list.  The spec's example list filtered on `"app"` yields
`Apps` and `app.txt`. -/
theorem search_filter_spec (full : List Entry) (text : String) :
    (pyStrip text = "" → search_items full text = full) ∧
    (pyStrip text ≠ "" →
      search_items full text =
        full.filter (fun e => pyIn (pyLower (pyStrip text)) (pyLower e.name))) ∧
    List.Sublist (search_items full text) full ∧
    (∀ e, e ∈ search_items full text ↔
      e ∈ full ∧ (pyStrip text = "" ∨ pyIn (pyLower (pyStrip text)) (pyLower e.name) = true)) ∧
    ((search_items exampleEntries "app").map Entry.name = ["Apps", "app.txt"] ∧
      search_items exampleEntries "" = exampleEntries) := by
  have hiff : pyLower (pyStrip text) = "" ↔ pyStrip text = "" := pyLower_eq_empty
  refine ⟨?_, ?_, ?_, ?_, by decide, by decide⟩
  · intro h
    rw [search_items, if_pos (hiff.mpr h)]
  · intro h
    rw [search_items, if_neg (fun hc => h (hiff.mp hc))]
  · by_cases h : pyLower (pyStrip text) = ""
    · rw [search_items, if_pos h]
    · rw [search_items, if_neg h]
      exact List.filter_sublist full
  · intro e
    by_cases h : pyLower (pyStrip text) = ""
    · rw [search_items, if_pos h]
      simp [hiff.mp h]
    · rw [search_items, if_neg h]
      rw [List.mem_filter]
      constructor
      · rintro ⟨h1, h2⟩
        exact ⟨h1, Or.inr h2⟩
      · rintro ⟨h1, h2 | h2⟩
        · exact absurd (hiff.mpr h2) h
        · exact ⟨h1, h2⟩

/-- Witness for C5: the filtering clause applied at the concrete example
list with the stripped text `"app"`. -/
theorem search_filter_spec_witness :
    search_items exampleEntries "app " =
      exampleEntries.filter (fun e => pyIn (pyLower (pyStrip "app ")) (pyLower e.name)) :=
  (search_filter_spec exampleEntries "app ").2.1 (by decide)

/-- C8.  Every mutating file operation ends its success path by requesting a
re-scan of the current path (`add_history=False`): without animation for new
folder, new file, delete, rename and paste, and with animation for the
move-via-drop handler (which always re-scans). -/
theorem mutating_ops_rescan (fs : List (String × Bool)) (current_path : String)
    (name new_name src : String) (urls : List String) (item : Option String) :
    (pyStrip name ≠ "" → fs_exists fs (os_path_join current_path (pyStrip name)) = false →
      (create_folder fs current_path true name).2 =
        some { path := current_path, add_history := false, animate := false } ∧
      (create_file fs current_path true name).2 =
        some { path := current_path, add_history := false, animate := false }) ∧
    (∀ p d, fs_exists fs p = true →
      (delete_item fs current_path (some (p, d)) true).2 =
        some { path := current_path, add_history := false, animate := false }) ∧
    (∀ old, pyStrip new_name ≠ "" →
      fs_exists fs (os_path_join current_path (pyStrip new_name)) = false →
      fs_exists fs old = true →
      (rename_item fs current_path (some old) true new_name).2 =
        some { path := current_path, add_history := false, animate := false }) ∧
    (fs_exists fs src = true →
      (paste_item fs current_path (some src)).2 =
        some { path := current_path, add_history := false, animate := false }) ∧
    (dropEvent fs current_path urls item).2 =
      { path := current_path, add_history := false, animate := true } := by
  refine ⟨?_, ?_, ?_, ?_, rfl⟩
  · intro h1 h2
    constructor
    · rw [create_folder, if_pos (by simp [h1]), if_neg (by simp [h2])]
    · rw [create_file, if_pos (by simp [h1]), if_neg (by simp [h2])]
  · intro p d hp
    rw [delete_item, if_pos rfl]
    simp [hp]
  · intro old h1 h2 h3
    rw [rename_item]
    rw [if_pos (by simp [h1]), if_neg (by simp [h2]), if_pos h3]
  · intro h
    rw [paste_item]
    simp [h]

/-- Witness for C8: new folder and new file at a concrete empty directory. -/
theorem mutating_ops_rescan_witness :
    (create_folder [] "/a" true "sub").2 =
      some { path := "/a", add_history := false, animate := false } ∧
    (create_file [] "/a" true "sub").2 =
      some { path := "/a", add_history := false, animate := false } :=
  (mutating_ops_rescan [] "/a" "sub" "x" "s" [] none).1 (by decide) (by decide)

/-- C9.  A saved settings document reproduces the theme mapping it was saved
with whenever the theme carries all five color-role keys, and is replaced
wholesale by the Dark default whenever any of the five keys is missing (an
absent settings file also yields the default). -/
theorem theme_roundtrip_validation (d : SettingsData) :
    load_theme (some (save_session_json d)) =
      (if theme_keys.all (fun k => (jlookup d.theme k).isSome) then JVal.obj d.theme
       else JVal.obj darkTheme) ∧
    load_theme none = JVal.obj darkTheme :=
  ⟨rfl, rfl⟩

end Filey
